import Mathlib

/-!
Verification of the extractfogospt geometry and normalization core.

The Python sources are shallowly embedded: machine floats are modelled as
rationals (`ℚ`), Python exceptions as `Option`, and library calls that the
repository treats as black boxes (XML parsing via `xml.etree`, float string
parsing via `float()`, coordinate reprojection via `pyproj`, timestamp
formatting via `datetime`) are taken as function parameters, applied exactly
where the source applies them.
-/

namespace Fogos

/-! ## Viewport sizer (`compute_zoom_from_bbox_meters`, src/main.py:153-165) -/

/-- Embedding of `compute_zoom_from_bbox_meters`: the span is the larger of
the two axis extents and the zoom is read off a fixed breakpoint table. -/
def compute_zoom_from_bbox_meters (minx miny maxx maxy : ℚ) : ℤ :=
  let span := max (maxx - minx) (maxy - miny)
  if span ≤ 5000 then 15
  else if span ≤ 20000 then 14
  else if span ≤ 80000 then 13
  else if span ≤ 300000 then 12
  else if span ≤ 800000 then 11
  else 10

/-! ## Display bounding box (`plot_with_basemap` padding, src/main.py:180-185) -/

/-- A projected bounding box, in meters (EPSG:3857). -/
structure Bounds where
  minx : ℚ
  miny : ℚ
  maxx : ℚ
  maxy : ℚ
  deriving DecidableEq, Repr

/-- Embedding of the padded display bbox computed in `plot_with_basemap`:
`dx = (maxx - minx) * 0.15 if (maxx - minx) > 0 else 2000` and similarly
for `dy`; the viewport is `(minx - dx, miny - dy, maxx + dx, maxy + dy)`. -/
def display_bbox (minx miny maxx maxy : ℚ) : Bounds :=
  let dx := if maxx - minx > 0 then (maxx - minx) * (15 / 100) else 2000
  let dy := if maxy - miny > 0 then (maxy - miny) * (15 / 100) else 2000
  ⟨minx - dx, miny - dy, maxx + dx, maxy + dy⟩

/-! ## Filename sanitizer (`safe_filename`, src/gt90json.py:204-217)

Python's character classifiers `str.isalnum` and `str.isspace` are
Unicode-aware library predicates; they are the parameters `isalnum` and
`isspace`, applied exactly where the source applies them. -/

/-- The characters `safe_filename` keeps unchanged: alphanumerics as judged
by `ch.isalnum()`, plus underscore, hyphen, dot. -/
def allowedChar (isalnum : Char → Bool) (c : Char) : Bool :=
  isalnum c || c = '_' || c = '-' || c = '.'

/-- Per-character action of the `safe_filename` loop: keep allowed
characters, turn `ch.isspace()` characters into an underscore, drop
everything else. -/
def sanitizeChar (isalnum isspace : Char → Bool) (c : Char) : Option Char :=
  if allowedChar isalnum c then some c
  else if isspace c then some '_'
  else none

/-- Embedding of `safe_filename`: empty input short-circuits, otherwise the
kept characters are joined and the result truncated to 200 characters. -/
def safe_filename (isalnum isspace : Char → Bool) (s : String) : String :=
  if s = "" then ""
  else
    let name := s.data.filterMap (sanitizeChar isalnum isspace)
    String.mk (if name.length > 200 then name.take 200 else name)

/-! ## KML polygon extractor (`extract_polygons_from_kml_string`, src/main.py:73-107)

XML parsing (`ET.fromstring` plus the two `findall` passes) and float string
parsing (`float()`) are library calls; they appear as parameters `parseXML`
(returning the list of coordinate-node texts on success, `none` on a parse
error) and `pf` (the float parser). -/

/-- Split a character list at every occurrence of `sep`, keeping empty
segments — the behaviour of Python's `t.split(',')`. -/
def splitOnCharAux (sep : Char) : List Char → List Char → List (List Char)
  | [], acc => [acc.reverse]
  | c :: cs, acc =>
    if c = sep then acc.reverse :: splitOnCharAux sep cs []
    else splitOnCharAux sep cs (c :: acc)

/-- Whitespace tokenization dropping empty tokens — the behaviour of
Python's `text.split()` (and of `.strip()` before it). -/
def splitWsAux : List Char → List Char → List String
  | [], acc => if acc.isEmpty then [] else [String.mk acc.reverse]
  | c :: cs, acc =>
    if c.isWhitespace then
      if acc.isEmpty then splitWsAux cs []
      else String.mk acc.reverse :: splitWsAux cs []
    else splitWsAux cs (c :: acc)

/-- One token of a coordinates node: split on commas, require at least two
parts, parse both as floats; any failure drops the token (`continue`). -/
def parseToken (pf : String → Option ℚ) (t : String) : Option (ℚ × ℚ) :=
  let parts := (splitOnCharAux ',' t.data []).map String.mk
  if 2 ≤ parts.length then
    match pf parts[0]!, pf parts[1]! with
    | some lon, some lat => some (lon, lat)
    | _, _ => none
  else none

/-- `cn.text.strip().split()`: whitespace tokenization, empty tokens gone. -/
def tokenize (text : String) : List String :=
  splitWsAux text.data []

/-- The token loop of the extractor: parsed points in order, failures
silently dropped. -/
def tokensToPoly (pf : String → Option ℚ) (toks : List String) : List (ℚ × ℚ) :=
  toks.filterMap (parseToken pf)

/-- `if poly[0] != poly[-1]: poly.append(poly[0])`. -/
def closeRing : List (ℚ × ℚ) → List (ℚ × ℚ)
  | [] => []
  | p :: rest =>
    if (p :: rest).getLast (List.cons_ne_nil p rest) = p then p :: rest
    else (p :: rest) ++ [p]

/-- Processing of a single coordinates node: parse tokens, keep the ring
only when it has at least 3 points, closing it if needed. -/
def ringOfNode (pf : String → Option ℚ) (text : String) : Option (List (ℚ × ℚ)) :=
  let poly := tokensToPoly pf (tokenize text)
  if 3 ≤ poly.length then some (closeRing poly) else none

/-- The node loop: nodes with no text (`cn.text is None`) and nodes whose
ring is too short are skipped. -/
def extract_rings (pf : String → Option ℚ) (nodes : List (Option String)) :
    List (List (ℚ × ℚ)) :=
  nodes.filterMap fun node => node.bind (ringOfNode pf)

/-- Embedding of `extract_polygons_from_kml_string`: empty input and double
parse failure (raw, then stripped) give the empty list. -/
def extract_polygons_from_kml_string (parseXML : String → Option (List (Option String)))
    (pf : String → Option ℚ) (s : String) : List (List (ℚ × ℚ)) :=
  if s = "" then []
  else
    match parseXML s with
    | some nodes => extract_rings pf nodes
    | none =>
      match parseXML s.trim with
      | some nodes => extract_rings pf nodes
      | none => []

/-! ## Area estimator (`polygon_area_km2`, src/main.py:109-113)

`Polygon(coords)` reprojects each vertex through a pointwise transformer and
takes the planar (shoelace) area of the closed ring, in m²; the function
divides by 10⁶. The pointwise reprojection is the parameter `proj`. -/

/-- The cross term of one directed edge of the shoelace sum. -/
def cross (p q : ℚ × ℚ) : ℚ := p.1 * q.2 - q.1 * p.2

/-- Twice the signed planar area of the closed ring through `l`
(the ring is implicitly closed, as shapely closes a `LinearRing`). -/
def shoelace (l : List (ℚ × ℚ)) : ℚ :=
  ∑ i ∈ Finset.range l.length,
    cross (l.getD i (0, 0)) (l.getD ((i + 1) % l.length) (0, 0))

/-- Embedding of `polygon_area_km2`: project every vertex, take the absolute
planar area, convert m² to km². -/
def polygon_area_km2 (proj : ℚ × ℚ → ℚ × ℚ) (coords : List (ℚ × ℚ)) : ℚ :=
  |shoelace (coords.map proj)| / 2 / 1000000

/-! ## Polygon selector (`choose_largest_polygon`, src/main.py:115-126)

`polygon_area_km2` may raise; its fallible evaluation is the parameter
`areaF` (`none` = exception, caught by the `except: continue`). -/

/-- One iteration of the selection loop over the running
`(best, best_area)` pair. -/
def choose_step (areaF : List (ℚ × ℚ) → Option ℚ)
    (acc : Option (List (ℚ × ℚ)) × ℚ) (p : List (ℚ × ℚ)) :
    Option (List (ℚ × ℚ)) × ℚ :=
  match areaF p with
  | none => acc
  | some a => if a > acc.2 then (some p, a) else acc

/-- Embedding of `choose_largest_polygon`: fold the loop from
`best = None, best_area = -1.0`, then `return best or []` (an empty best is
falsy in Python, hence the final guard). -/
def choose_largest_polygon (areaF : List (ℚ × ℚ) → Option ℚ)
    (polygons : List (List (ℚ × ℚ))) : List (ℚ × ℚ) :=
  match (polygons.foldl (choose_step areaF) (none, -1)).1 with
  | some p => if p = [] then [] else p
  | none => []

/-! ## Incident record normalizer (src/video.py:105-164, src/gt90json.py)

Upstream records are JSON objects; their values are modelled by `PyVal`
(floats as rationals, nested objects as association lists). `rec.get(k)`
is `pyGet`, Python truthiness is `truthyV`, `str(v)` is `pyStr`, and the
builtins `int(v)` / `float(v)` are `pyIntOf` / `pyFloatOf`. -/

/-- A JSON-ish Python value as found in the incident feed. -/
inductive PyVal where
  | null : PyVal
  | str (s : String) : PyVal
  | int (n : ℤ) : PyVal
  | float (q : ℚ) : PyVal
  | dict (entries : List (String × PyVal)) : PyVal

/-- Python truthiness of a value. -/
def truthyV : PyVal → Bool
  | .null => false
  | .str s => s ≠ ""
  | .int n => n ≠ 0
  | .float q => q ≠ 0
  | .dict es => match es with | [] => false | _ => true

/-- Python truthiness of a `rec.get(k)` result (`None` is falsy). -/
def truthy : Option PyVal → Bool
  | none => false
  | some v => truthyV v

/-- `str(v)` (object rendering abbreviated; no claim depends on it). -/
def pyStr : PyVal → String
  | .null => "None"
  | .str s => s
  | .int n => toString n
  | .float q => toString q
  | .dict _ => "\x7b...\x7d"

/-- `rec.get(k)` on an object. -/
def pyGet (rec : List (String × PyVal)) (k : String) : Option PyVal :=
  (rec.find? fun kv => kv.1 = k).map Prod.snd

/-- `int()` truncates floats toward zero. -/
def pyTrunc (q : ℚ) : ℤ := if 0 ≤ q then ⌊q⌋ else ⌈q⌉

/-- Value of a digit string, most significant first. -/
def digitsVal (ds : List Char) : ℤ :=
  ds.foldl (fun acc c => acc * 10 + ((c.toNat : ℤ) - 48)) 0

/-- Surrounding whitespace removal (Python's `.strip()` as applied by
`int()` / `float()` to string arguments). -/
def trimWs (l : List Char) : List Char :=
  ((l.dropWhile Char.isWhitespace).reverse.dropWhile Char.isWhitespace).reverse

/-- An optional sign followed by a nonempty digit run. -/
def parseSignedDigits (l : List Char) : Option ℤ :=
  let sgn : ℤ := match l with | '-' :: _ => -1 | _ => 1
  let ds := match l with | '-' :: t => t | '+' :: t => t | t => t
  if !ds.isEmpty && ds.all Char.isDigit then some (sgn * digitsVal ds)
  else none

/-- A concrete executable instantiation of the `int(s)` string parser
(surrounding whitespace, optional sign, digits), agreeing with Python on
the plain decimal strings used below; the normalizer takes the real parser
as the parameter `intOfStr`. -/
def parsePyInt (s : String) : Option ℤ :=
  parseSignedDigits (trimWs s.data)

/-- A concrete executable instantiation of the `float(s)` string parser on
the decimal forms `[sign] digits [. digits] [e [sign] digits]`, agreeing
with Python there; the normalizer takes the real parser as the parameter
`floatOfStr`. -/
def parsePyFloat (s : String) : Option ℚ :=
  let t := (trimWs s.data).map Char.toLower
  let sgn : ℚ := match t with | '-' :: _ => -1 | _ => 1
  let u := match t with | '-' :: r => r | '+' :: r => r | r => r
  let me : Option (List Char × ℤ) :=
    match splitOnCharAux 'e' u [] with
    | [m] => some (m, 0)
    | [m, ex] => (parseSignedDigits ex).map fun e => (m, e)
    | _ => none
  match me with
  | none => none
  | some (m, e) =>
    match splitOnCharAux '.' m [] with
    | [a] =>
      if !a.isEmpty && a.all Char.isDigit then
        some (sgn * (digitsVal a : ℚ) * (10 : ℚ) ^ e)
      else none
    | [a, b] =>
      if (!a.isEmpty || !b.isEmpty) && a.all Char.isDigit
          && b.all Char.isDigit then
        some (sgn * ((digitsVal a : ℚ)
          + (digitsVal b : ℚ) / (10 : ℚ) ^ b.length) * (10 : ℚ) ^ e)
      else none
    | _ => none

/-- Models `int(v)` on a feed value; the library string parser `int(s)`
is the parameter `intOfStr`. -/
def pyIntOf (intOfStr : String → Option ℤ) : PyVal → Option ℤ
  | .int n => some n
  | .float q => some (pyTrunc q)
  | .str s => intOfStr s
  | _ => none

/-- Models `float(v)` on a feed value; the library string parser
`float(s)` is the parameter `floatOfStr`. -/
def pyFloatOf (floatOfStr : String → Option ℚ) : PyVal → Option ℚ
  | .int n => some (n : ℚ)
  | .float q => some q
  | .str s => floatOfStr s
  | _ => none

/-- First truthy value among the listed keys (the head loop of
`safe_get_name`). -/
def firstTruthy (rec : List (String × PyVal)) : List String → Option PyVal
  | [] => none
  | k :: ks =>
    match pyGet rec k with
    | some v => if truthyV v then some v else firstTruthy rec ks
    | none => firstTruthy rec ks

/-- Embedding of `safe_get_name` (src/video.py:105-112). -/
def safe_get_name (rec : List (String × PyVal)) : String :=
  match firstTruthy rec ["concelho", "local", "nome", "location", "municipio"] with
  | some v => pyStr v
  | none =>
    if truthy (pyGet rec "freguesia") && truthy (pyGet rec "concelho") then
      (match pyGet rec "freguesia" with | some v => pyStr v | none => "None")
        ++ " (" ++
        (match pyGet rec "concelho" with | some v => pyStr v | none => "None")
        ++ ")"
    else
      match pyGet rec "id" with
      | some v => pyStr v
      | none => "Incêndio"

/-- Embedding of `safe_get_int` (src/video.py:114-126): first key whose
value is not `None`; `int(v)`, retried as `int(float(v))`, else continue;
exhaustion gives the default. -/
def safe_get_int (intOfStr : String → Option ℤ) (floatOfStr : String → Option ℚ)
    (rec : List (String × PyVal)) : List String → ℤ → ℤ
  | [], d => d
  | k :: rest, d =>
    match pyGet rec k with
    | none => safe_get_int intOfStr floatOfStr rec rest d
    | some .null => safe_get_int intOfStr floatOfStr rec rest d
    | some v =>
      match pyIntOf intOfStr v with
      | some n => n
      | none =>
        match (pyFloatOf floatOfStr v).map pyTrunc with
        | some n => n
        | none => safe_get_int intOfStr floatOfStr rec rest d

/-- Embedding of the per-count parse in `main` of src/gt90json.py:259-270:
`int(inc.get("man", 0) or 0)` wrapped in `except: man = 0` — the absent or
falsy value coalesces to `0`, `int()` is attempted once, and any failure
yields `0`; there is no float retry on this path. -/
def gt90_count (intOfStr : String → Option ℤ) (v : Option PyVal) : ℤ :=
  let w := match v with
    | some u => if truthyV u then u else PyVal.int 0
    | none => PyVal.int 0
  match pyIntOf intOfStr w with
  | some n => n
  | none => 0

/-! `safe_get_time` (src/video.py:139-164). `datetime.fromtimestamp(·)
.strftime(...)` is the parameter `fmt` (`none` = the `except: pass`). -/

/-- Stage 1: a structured `dateTime` object with a positive numeric
`sec` (or, when that is falsy, `seconds`) entry. -/
def stage1_datetime_sec (fmt : ℤ → Option String)
    (rec : List (String × PyVal)) : Option String :=
  match pyGet rec "dateTime" with
  | some (.dict d) =>
    let s1 := pyGet d "sec"
    let sec := if truthy s1 then s1 else pyGet d "seconds"
    match sec with
    | some (.int n) => if 0 < n then fmt n else none
    | some (.float q) => if 0 < q then fmt (pyTrunc q) else none
    | _ => none
  | _ => none

/-- Stage 2 helper: one bare numeric key, formatted as an epoch. -/
def tryNumKey (fmt : ℤ → Option String) (rec : List (String × PyVal))
    (k : String) : Option String :=
  match pyGet rec k with
  | some (.int n) => fmt n
  | some (.float q) => fmt (pyTrunc q)
  | _ => none

/-- Stage 2: the `started`, `time`, `timestamp` loop. -/
def stage2_numeric (fmt : ℤ → Option String)
    (rec : List (String × PyVal)) : Option String :=
  tryNumKey fmt rec "started" <|> tryNumKey fmt rec "time"
    <|> tryNumKey fmt rec "timestamp"

/-- The free-text key order of stage 3. -/
def TEXT_KEYS : List String :=
  ["date", "data_inicio", "data", "datetime", "created_at", "start", "hour"]

/-- Stage 3: the free-text loop, including the `hour`-onto-`date`
composition branch exactly as written. -/
def stage3_text (rec : List (String × PyVal)) : List String → Option String
  | [] => none
  | k :: ks =>
    match pyGet rec k with
    | some v =>
      if truthyV v then
        if k == "hour" && truthy (pyGet rec "date") then
          some ((match pyGet rec "date" with
                 | some dv => pyStr dv
                 | none => "None") ++ " " ++ pyStr v)
        else some (pyStr v)
      else stage3_text rec ks
    | none => stage3_text rec ks

/-- Embedding of `safe_get_time`: the three stages in order, then
`str(rec.get("id", ""))`. -/
def safe_get_time (fmt : ℤ → Option String)
    (rec : List (String × PyVal)) : String :=
  match stage1_datetime_sec fmt rec with
  | some s => s
  | none =>
    match stage2_numeric fmt rec with
    | some s => s
    | none =>
      match stage3_text rec TEXT_KEYS with
      | some s => s
      | none =>
        match pyGet rec "id" with
        | some v => pyStr v
        | none => ""

/-! ## Theorems -/

/-- C1: `compute_zoom_from_bbox_meters` is determined solely by
`span = max(width, height)` through the fixed inclusive-upper-bound table
(≤5000 → 15, ≤20000 → 14, ≤80000 → 13, ≤300000 → 12, ≤800000 → 11,
else 10), and is monotonically non-increasing as a function of span. -/
theorem compute_zoom_table_monotone (minx miny maxx maxy : ℚ) :
    (max (maxx - minx) (maxy - miny) ≤ 5000 →
      compute_zoom_from_bbox_meters minx miny maxx maxy = 15) ∧
    (5000 < max (maxx - minx) (maxy - miny) →
      max (maxx - minx) (maxy - miny) ≤ 20000 →
      compute_zoom_from_bbox_meters minx miny maxx maxy = 14) ∧
    (20000 < max (maxx - minx) (maxy - miny) →
      max (maxx - minx) (maxy - miny) ≤ 80000 →
      compute_zoom_from_bbox_meters minx miny maxx maxy = 13) ∧
    (80000 < max (maxx - minx) (maxy - miny) →
      max (maxx - minx) (maxy - miny) ≤ 300000 →
      compute_zoom_from_bbox_meters minx miny maxx maxy = 12) ∧
    (300000 < max (maxx - minx) (maxy - miny) →
      max (maxx - minx) (maxy - miny) ≤ 800000 →
      compute_zoom_from_bbox_meters minx miny maxx maxy = 11) ∧
    (800000 < max (maxx - minx) (maxy - miny) →
      compute_zoom_from_bbox_meters minx miny maxx maxy = 10) ∧
    (∀ a b c d : ℚ,
      max (maxx - minx) (maxy - miny) ≤ max (c - a) (d - b) →
      compute_zoom_from_bbox_meters a b c d ≤
        compute_zoom_from_bbox_meters minx miny maxx maxy) := by
  simp only [compute_zoom_from_bbox_meters]
  refine ⟨?_, ?_, ?_, ?_, ?_, ?_, ?_⟩ <;> intros <;>
    split_ifs <;> first | rfl | (exfalso; linarith) | decide

/-- Witness for C1 at a concrete bounding box. -/
theorem compute_zoom_table_monotone_witness :
    compute_zoom_from_bbox_meters 0 0 4000 0 = 15 :=
  (compute_zoom_table_monotone 0 0 4000 0).1 (by norm_num)

/-- C6: the display bbox pads each axis by 15% of that axis's span on both
sides, substitutes a fixed 2000 m padding on a zero-span axis, and the
resulting viewport is never empty. -/
theorem display_bbox_padding (minx miny maxx maxy : ℚ)
    (hx : minx ≤ maxx) (hy : miny ≤ maxy) :
    (0 < maxx - minx →
      (display_bbox minx miny maxx maxy).minx = minx - (maxx - minx) * (15 / 100) ∧
      (display_bbox minx miny maxx maxy).maxx = maxx + (maxx - minx) * (15 / 100)) ∧
    (maxx - minx = 0 →
      (display_bbox minx miny maxx maxy).minx = minx - 2000 ∧
      (display_bbox minx miny maxx maxy).maxx = maxx + 2000) ∧
    (0 < maxy - miny →
      (display_bbox minx miny maxx maxy).miny = miny - (maxy - miny) * (15 / 100) ∧
      (display_bbox minx miny maxx maxy).maxy = maxy + (maxy - miny) * (15 / 100)) ∧
    (maxy - miny = 0 →
      (display_bbox minx miny maxx maxy).miny = miny - 2000 ∧
      (display_bbox minx miny maxx maxy).maxy = maxy + 2000) ∧
    (display_bbox minx miny maxx maxy).minx < (display_bbox minx miny maxx maxy).maxx ∧
    (display_bbox minx miny maxx maxy).miny < (display_bbox minx miny maxx maxy).maxy := by
  refine ⟨fun h => ⟨?_, ?_⟩, fun h => ⟨?_, ?_⟩, fun h => ⟨?_, ?_⟩, fun h => ⟨?_, ?_⟩,
    ?_, ?_⟩ <;>
  · simp only [display_bbox]
    split_ifs <;> first | rfl | linarith

/-- Witness for C6 at a concrete degenerate-in-y bounding box. -/
theorem display_bbox_padding_witness :
    (display_bbox 0 7 1000 7).miny = 7 - 2000 ∧
    (display_bbox 0 7 1000 7).minx = 0 - (1000 - 0) * (15 / 100) :=
  ⟨((display_bbox_padding 0 7 1000 7 (by norm_num) le_rfl).2.2.2.1 (by norm_num)).1,
   ((display_bbox_padding 0 7 1000 7 (by norm_num) le_rfl).1 (by norm_num)).1⟩

/-- C10: for any character classifiers, `safe_filename` keeps allowed
characters in order, replaces whitespace by underscores, drops the rest,
truncates to 200 characters; its output only contains alphanumerics,
underscore, hyphen and dot, and the empty string maps to itself. -/
theorem safe_filename_sanitizes (isalnum isspace : Char → Bool) (s : String) :
    (safe_filename isalnum isspace s).length ≤ 200 ∧
    (∀ c ∈ (safe_filename isalnum isspace s).data, allowedChar isalnum c = true) ∧
    safe_filename isalnum isspace s =
      String.mk ((s.data.filterMap (sanitizeChar isalnum isspace)).take 200) ∧
    safe_filename isalnum isspace "" = "" := by
  have hmk : safe_filename isalnum isspace s =
      String.mk ((s.data.filterMap (sanitizeChar isalnum isspace)).take 200) := by
    by_cases h : s = ""
    · subst h; rfl
    · simp only [safe_filename, if_neg h]
      split_ifs with hlen
      · rfl
      · rw [List.take_of_length_le (by omega)]
  refine ⟨?_, ?_, hmk, rfl⟩
  · rw [hmk]
    show (List.take 200 _).length ≤ 200
    rw [List.length_take]
    omega
  · intro c hc
    rw [hmk] at hc
    have hc' : c ∈ s.data.filterMap (sanitizeChar isalnum isspace) :=
      List.take_subset _ _ hc
    obtain ⟨a, -, ha⟩ := List.mem_filterMap.mp hc'
    unfold sanitizeChar at ha
    split_ifs at ha with h1 h2
    all_goals
      first
      | exact (Option.some.inj ha) ▸ h1
      | exact (Option.some.inj ha) ▸
          (by simp [allowedChar] : allowedChar isalnum '_' = true)
      | exact Option.noConfusion ha

/-- Witness for C10: underscore substituted for whitespace is allowed, at
the ASCII instantiation of the classifiers. -/
theorem safe_filename_sanitizes_witness :
    allowedChar Char.isAlphanum '_' = true :=
  (safe_filename_sanitizes Char.isAlphanum Char.isWhitespace "a b").2.1 '_' (by decide)

/-- A closed ring has matching first and last points. -/
lemma closeRing_head_eq_last (p : ℚ × ℚ) (rest : List (ℚ × ℚ)) :
    (closeRing (p :: rest)).head? = (closeRing (p :: rest)).getLast? := by
  simp only [closeRing]
  split_ifs with h
  · have h2 : (p :: rest).getLast? = some p := by
      rw [List.getLast?_eq_getLast _ (List.cons_ne_nil p rest), h]
    exact (rfl : (p :: rest).head? = some p).trans h2.symm
  · have h1 : ((p :: rest) ++ [p]).head? = some p := rfl
    have h2 : ((p :: rest) ++ [p]).getLast? = some p := List.getLast?_concat _
    exact h1.trans h2.symm

/-- Closing a ring never shortens it. -/
lemma closeRing_length_ge (p : ℚ × ℚ) (rest : List (ℚ × ℚ)) :
    (p :: rest).length ≤ (closeRing (p :: rest)).length := by
  simp only [closeRing]
  split_ifs <;> simp

/-- Any emitted ring comes from some node text. -/
lemma mem_extract_rings {pf : String → Option ℚ} {nodes : List (Option String)}
    {r : List (ℚ × ℚ)} (hr : r ∈ extract_rings pf nodes) :
    ∃ text, ringOfNode pf text = some r := by
  unfold extract_rings at hr
  obtain ⟨node, -, hn⟩ := List.mem_filterMap.mp hr
  cases node with
  | none => simp at hn
  | some text => exact ⟨text, hn⟩

/-- Inversion for `ringOfNode`. -/
lemma ringOfNode_inv {pf : String → Option ℚ} {text : String} {r : List (ℚ × ℚ)}
    (h : ringOfNode pf text = some r) :
    3 ≤ (tokensToPoly pf (tokenize text)).length ∧
      r = closeRing (tokensToPoly pf (tokenize text)) := by
  simp only [ringOfNode] at h
  split_ifs at h with hlen
  all_goals first
    | exact ⟨hlen, (Option.some.inj h).symm⟩
    | exact Option.noConfusion h

/-- C2: every ring returned by the extractor has at least 3 points and its
first point equals its last point; a node whose parsed ring has ≥ 3 points
with differing endpoints is emitted as that ring with the first point
appended. -/
theorem extract_rings_closed (parseXML : String → Option (List (Option String)))
    (pf : String → Option ℚ) :
    (∀ (s : String) (r : List (ℚ × ℚ)),
      r ∈ extract_polygons_from_kml_string parseXML pf s →
      3 ≤ r.length ∧ r.head? = r.getLast?) ∧
    (∀ (text : String) (p : ℚ × ℚ) (rest : List (ℚ × ℚ)),
      tokensToPoly pf (tokenize text) = p :: rest →
      3 ≤ (p :: rest).length →
      (p :: rest).getLast (List.cons_ne_nil p rest) ≠ p →
      ringOfNode pf text = some ((p :: rest) ++ [p])) := by
  constructor
  · intro s r hr
    have hr' : ∃ nodes, r ∈ extract_rings pf nodes := by
      unfold extract_polygons_from_kml_string at hr
      split_ifs at hr
      · simp at hr
      · cases hpx : parseXML s with
        | some nodes => rw [hpx] at hr; exact ⟨nodes, hr⟩
        | none =>
          rw [hpx] at hr
          cases hpx2 : parseXML s.trim with
          | some nodes2 => rw [hpx2] at hr; exact ⟨nodes2, hr⟩
          | none => rw [hpx2] at hr; simp at hr
    obtain ⟨nodes, hrn⟩ := hr'
    obtain ⟨text, ht⟩ := mem_extract_rings hrn
    obtain ⟨hlen, hr3⟩ := ringOfNode_inv ht
    subst hr3
    cases hp : tokensToPoly pf (tokenize text) with
    | nil => rw [hp] at hlen; simp at hlen
    | cons p rest =>
      rw [hp] at hlen
      exact ⟨le_trans hlen (closeRing_length_ge p rest),
        closeRing_head_eq_last p rest⟩
  · intro text p rest hpoly hlen hne
    simp only [ringOfNode, hpoly]
    rw [if_pos hlen]
    simp only [closeRing]
    rw [if_neg hne]

/-- Witness for C2 on a concrete unclosed triangle node. -/
theorem extract_rings_closed_witness :
    ringOfNode (fun t => if t = "0" then some (0 : ℚ) else if t = "1" then some 1 else none)
        "0,0 1,0 0,1" =
      some [((0 : ℚ), (0 : ℚ)), (1, 0), (0, 1), (0, 0)] :=
  (extract_rings_closed (fun _ => none)
      (fun t => if t = "0" then some (0 : ℚ) else if t = "1" then some 1 else none)).2
    "0,0 1,0 0,1" (0, 0) [(1, 0), (0, 1)] (by decide) (by decide) (by decide)

/-- C4: empty, non-XML or malformed input yields the empty ring sequence
(parse failures degrade, they are not propagated), and a token that fails
to parse is dropped without discarding the rest of its ring. -/
theorem extract_degrades (parseXML : String → Option (List (Option String)))
    (pf : String → Option ℚ) :
    (∀ s : String, s = "" ∨ (parseXML s = none ∧ parseXML s.trim = none) →
      extract_polygons_from_kml_string parseXML pf s = []) ∧
    (∀ (pre post : List String) (t : String), parseToken pf t = none →
      tokensToPoly pf (pre ++ t :: post) = tokensToPoly pf (pre ++ post)) := by
  constructor
  · rintro s (rfl | ⟨h1, h2⟩)
    · rfl
    · unfold extract_polygons_from_kml_string
      split_ifs with he
      · rfl
      · rw [h1, h2]
  · intro pre post t ht
    simp [tokensToPoly, List.filterMap_append, List.filterMap_cons, ht]

/-- Witness for C4 on concrete malformed input and a concrete bad token. -/
theorem extract_degrades_witness :
    extract_polygons_from_kml_string (fun _ => none)
        (fun t => if t = "0" then some (0 : ℚ) else if t = "1" then some 1 else none)
        "<bad" = [] ∧
    tokensToPoly (fun t => if t = "0" then some (0 : ℚ) else if t = "1" then some 1 else none)
        ["0,0", "oops", "1,1"] =
      tokensToPoly (fun t => if t = "0" then some (0 : ℚ) else if t = "1" then some 1 else none)
        ["0,0", "1,1"] :=
  ⟨(extract_degrades (fun _ => none)
      (fun t => if t = "0" then some (0 : ℚ) else if t = "1" then some 1 else none)).1
      "<bad" (Or.inr ⟨rfl, rfl⟩),
   (extract_degrades (fun _ => none)
      (fun t => if t = "0" then some (0 : ℚ) else if t = "1" then some 1 else none)).2
      ["0,0"] ["1,1"] "oops" (by decide)⟩

/-- Skipping a key whose value is absent or falsy. -/
lemma firstTruthy_cons_skip (rec : List (String × PyVal)) (k : String)
    (ks : List String) (h : truthy (pyGet rec k) = false) :
    firstTruthy rec (k :: ks) = firstTruthy rec ks := by
  simp only [firstTruthy]
  cases hv : pyGet rec k with
  | none => rfl
  | some v =>
    rw [hv] at h
    simp only [truthy] at h
    simp [h]

/-- A present truthy key wins immediately. -/
lemma firstTruthy_cons_hit (rec : List (String × PyVal)) (k : String)
    (ks : List String) (v : PyVal) (h : pyGet rec k = some v)
    (ht : truthyV v = true) :
    firstTruthy rec (k :: ks) = some v := by
  simp only [firstTruthy]
  rw [h]
  simp [ht]

/-- C7: `safe_get_name` tries `concelho`, `local`, `nome` (then the further
candidates) in order, returns the first present non-empty (truthy) value and
never consults later keys once one succeeds; with every candidate falsy it
falls back to the record id and then to the literal placeholder; a record
with `concelho="A"` and `local="B"` resolves to `"A"`. -/
theorem safe_get_name_order (rec : List (String × PyVal)) :
    (∀ v, pyGet rec "concelho" = some v → truthyV v = true →
      safe_get_name rec = pyStr v) ∧
    (∀ v, truthy (pyGet rec "concelho") = false →
      pyGet rec "local" = some v → truthyV v = true →
      safe_get_name rec = pyStr v) ∧
    (∀ v, truthy (pyGet rec "concelho") = false →
      truthy (pyGet rec "local") = false →
      pyGet rec "nome" = some v → truthyV v = true →
      safe_get_name rec = pyStr v) ∧
    (truthy (pyGet rec "concelho") = false →
      truthy (pyGet rec "local") = false →
      truthy (pyGet rec "nome") = false →
      truthy (pyGet rec "location") = false →
      truthy (pyGet rec "municipio") = false →
      (∀ v, pyGet rec "id" = some v → safe_get_name rec = pyStr v) ∧
      (pyGet rec "id" = none → safe_get_name rec = "Incêndio")) ∧
    safe_get_name [("concelho", PyVal.str "A"), ("local", PyVal.str "B")] = "A" := by
  refine ⟨?_, ?_, ?_, ?_, rfl⟩
  · intro v h ht
    unfold safe_get_name
    rw [firstTruthy_cons_hit rec _ _ v h ht]
  · intro v h1 h2 ht
    unfold safe_get_name
    rw [firstTruthy_cons_skip rec _ _ h1, firstTruthy_cons_hit rec _ _ v h2 ht]
  · intro v h1 h2 h3 ht
    unfold safe_get_name
    rw [firstTruthy_cons_skip rec _ _ h1, firstTruthy_cons_skip rec _ _ h2,
      firstTruthy_cons_hit rec _ _ v h3 ht]
  · intro h1 h2 h3 h4 h5
    have hfall : firstTruthy rec
        ["concelho", "local", "nome", "location", "municipio"] = none := by
      rw [firstTruthy_cons_skip rec _ _ h1, firstTruthy_cons_skip rec _ _ h2,
        firstTruthy_cons_skip rec _ _ h3, firstTruthy_cons_skip rec _ _ h4,
        firstTruthy_cons_skip rec _ _ h5]
      rfl
    constructor
    · intro v hv
      unfold safe_get_name
      rw [hfall, h1, hv]
      simp
    · intro hv
      unfold safe_get_name
      rw [hfall, h1, hv]
      simp

/-- Witness for C7 on the two-key record from the claim. -/
theorem safe_get_name_order_witness :
    safe_get_name [("concelho", PyVal.str "A"), ("local", PyVal.str "B")] = "A" :=
  (safe_get_name_order [("concelho", PyVal.str "A"), ("local", PyVal.str "B")]).1
    (PyVal.str "A") rfl (by decide)

/-- C9 counterexample: the claim fails at both cited code sites. In the
video normalizer a record carrying `man = -3` normalizes to the negative
integer `-3`, so counts are not non-negative; and on the gt90json path the
string `"7.5"` yields the default `0` even though it fails integer parsing
while parsing as a float — there is no float retry there. -/
theorem safe_get_int_negative_counterexample :
    (safe_get_int parsePyInt parsePyFloat [("man", PyVal.int (-3))] ["man"] 0 = -3 ∧
      ¬ (0 ≤ safe_get_int parsePyInt parsePyFloat [("man", PyVal.int (-3))] ["man"] 0)) ∧
    (gt90_count parsePyInt (some (PyVal.str "7.5")) = 0 ∧
      parsePyInt "7.5" = none ∧
      (parsePyFloat "7.5").isSome = true) := by
  refine ⟨⟨rfl, ?_⟩, rfl, by decide, rfl⟩
  intro h
  have h2 : (0 : ℤ) ≤ -3 := h
  omega

/-- C9 (amended): each count key resolves to an integer. In the video
normalizer (`safe_get_int`) an integer-like value parses directly, a string
that fails integer parsing is retried as a float and truncated, a wholly
non-numeric value is skipped silently, and exhaustion or absence yields the
default; the result is non-negative whenever every present value only
parses to non-negative numbers and the default is non-negative. On the
gt90json extraction path (`gt90_count`), `int()` is attempted once on the
falsy-coalesced value — an integer-like value parses directly, but any
failure, including a float-like string, yields `0` with no float retry. -/
theorem safe_get_int_parses (intOfStr : String → Option ℤ)
    (floatOfStr : String → Option ℚ) (rec : List (String × PyVal)) :
    (∀ (k : String) (rest : List String) (d n : ℤ),
      pyGet rec k = some (PyVal.int n) →
      safe_get_int intOfStr floatOfStr rec (k :: rest) d = n) ∧
    (∀ (k : String) (rest : List String) (d : ℤ) (s : String) (q : ℚ),
      pyGet rec k = some (PyVal.str s) → intOfStr s = none →
      floatOfStr s = some q →
      safe_get_int intOfStr floatOfStr rec (k :: rest) d = pyTrunc q) ∧
    (∀ (keys : List String) (d : ℤ),
      (∀ k ∈ keys, pyGet rec k = none) →
      safe_get_int intOfStr floatOfStr rec keys d = d) ∧
    (∀ (k : String) (rest : List String) (d : ℤ) (v : PyVal),
      pyGet rec k = some v → pyIntOf intOfStr v = none →
      pyFloatOf floatOfStr v = none →
      safe_get_int intOfStr floatOfStr rec (k :: rest) d =
        safe_get_int intOfStr floatOfStr rec rest d) ∧
    (∀ (keys : List String) (d : ℤ), 0 ≤ d →
      (∀ (k : String) (v : PyVal), pyGet rec k = some v →
        (∀ n, pyIntOf intOfStr v = some n → 0 ≤ n) ∧
        (∀ q, pyFloatOf floatOfStr v = some q → 0 ≤ pyTrunc q)) →
      0 ≤ safe_get_int intOfStr floatOfStr rec keys d) ∧
    (gt90_count intOfStr none = 0) ∧
    (∀ v : PyVal, truthyV v = false → gt90_count intOfStr (some v) = 0) ∧
    (∀ n : ℤ, gt90_count intOfStr (some (PyVal.int n)) = n) ∧
    (∀ s : String, s ≠ "" → intOfStr s = none →
      gt90_count intOfStr (some (PyVal.str s)) = 0) ∧
    (∀ (s : String) (n : ℤ), s ≠ "" → intOfStr s = some n →
      gt90_count intOfStr (some (PyVal.str s)) = n) := by
  refine ⟨?_, ?_, ?_, ?_, ?_, rfl, ?_, ?_, ?_, ?_⟩
  · intro k rest d n h
    simp only [safe_get_int]
    rw [h]
    rfl
  · intro k rest d s q h hi hf
    simp only [safe_get_int]
    rw [h]
    simp only [pyIntOf, pyFloatOf, hi, hf, Option.map_some]
    rfl
  · intro keys d h
    induction keys with
    | nil => rfl
    | cons k rest ih =>
      simp only [safe_get_int]
      rw [h k (List.mem_cons_self k rest)]
      exact ih fun k' hk' => h k' (List.mem_cons_of_mem k hk')
  · intro k rest d v h hi hf
    cases v with
    | null => simp only [safe_get_int]; rw [h]
    | str s =>
      simp only [safe_get_int]
      rw [h]
      simp only [pyIntOf, pyFloatOf] at hi hf
      simp only [pyIntOf, pyFloatOf, hi, hf, Option.map_none]
      rfl
    | int n => exact absurd hi (by simp [pyIntOf])
    | float q => exact absurd hi (by simp [pyIntOf])
    | dict es => simp only [safe_get_int]; rw [h]; rfl
  · intro keys d hd hv
    induction keys with
    | nil => exact hd
    | cons k rest ih =>
      simp only [safe_get_int]
      cases hk : pyGet rec k with
      | none => exact ih
      | some v =>
        cases v with
        | null => exact ih
        | str s =>
          show (0 : ℤ) ≤ ((match intOfStr s with
            | some n => n
            | none =>
              match (floatOfStr s).map pyTrunc with
              | some n => n
              | none => safe_get_int intOfStr floatOfStr rec rest d : ℤ))
          cases hi : intOfStr s with
          | some n =>
            exact (hv k _ hk).1 n (by simpa [pyIntOf] using hi)
          | none =>
            cases hf : floatOfStr s with
            | some q =>
              exact (hv k _ hk).2 q (by simpa [pyFloatOf] using hf)
            | none => exact ih
        | int n =>
          exact (hv k _ hk).1 n rfl
        | float q =>
          exact (hv k _ hk).1 (pyTrunc q) rfl
        | dict es =>
          exact ih
  · intro v h
    simp [gt90_count, h, pyIntOf]
  · intro n
    by_cases hn : n = 0
    · subst hn; rfl
    · have ht : truthyV (PyVal.int n) = true := by simp [truthyV, hn]
      simp [gt90_count, ht, pyIntOf]
  · intro s hs hi
    have ht : truthyV (PyVal.str s) = true := by simp [truthyV, hs]
    simp [gt90_count, ht, pyIntOf, hi]
  · intro s n hs hi
    have ht : truthyV (PyVal.str s) = true := by simp [truthyV, hs]
    simp [gt90_count, ht, pyIntOf, hi]

/-- Witness for C9 (amended) on a concrete record and both paths. -/
theorem safe_get_int_parses_witness :
    safe_get_int parsePyInt parsePyFloat [("man", PyVal.int 7)] ["man", "terrain"] 0 = 7 ∧
    gt90_count parsePyInt (some (PyVal.str "12")) = 12 :=
  ⟨(safe_get_int_parses parsePyInt parsePyFloat [("man", PyVal.int 7)]).1
      "man" ["terrain"] 0 7 rfl,
   (safe_get_int_parses parsePyInt parsePyFloat []).2.2.2.2.2.2.2.2.2
      "12" 12 (by decide) (by decide)⟩

/-- C8 counterexample: on a record with both a truthy `date` and a truthy
`hour`, `safe_get_time` returns the date value alone — the `hour` is never
composed onto it, because the `date` key is tried first and its truthiness
also guards the composition branch. -/
theorem safe_get_time_no_compose_counterexample :
    safe_get_time (fun _ => none)
        [("date", PyVal.str "01-01-2024"), ("hour", PyVal.str "12:00")] =
      "01-01-2024" ∧
    safe_get_time (fun _ => none)
        [("date", PyVal.str "01-01-2024"), ("hour", PyVal.str "12:00")] ≠
      "01-01-2024 12:00" := by
  constructor
  · rfl
  · intro h
    have h2 : ("01-01-2024" : String) = "01-01-2024 12:00" := by
      rw [← h]; rfl
    exact absurd h2 (by decide)

/-- C8 (amended): `safe_get_time` tries the structured `dateTime.sec`
object, then the bare numeric epoch keys, then the free-text keys, first
success wins, and falls back to the id rendered as a string; within the
free-text stage the `date` key is tried first, so a record with a truthy
`date` resolves to the date value alone and the `hour` composition branch
is unreachable. -/
theorem safe_get_time_stage_order (fmt : ℤ → Option String)
    (rec : List (String × PyVal)) :
    (∀ s, stage1_datetime_sec fmt rec = some s → safe_get_time fmt rec = s) ∧
    (∀ s, stage1_datetime_sec fmt rec = none → stage2_numeric fmt rec = some s →
      safe_get_time fmt rec = s) ∧
    (∀ s, stage1_datetime_sec fmt rec = none → stage2_numeric fmt rec = none →
      stage3_text rec TEXT_KEYS = some s → safe_get_time fmt rec = s) ∧
    (stage1_datetime_sec fmt rec = none → stage2_numeric fmt rec = none →
      stage3_text rec TEXT_KEYS = none →
      (∀ v, pyGet rec "id" = some v → safe_get_time fmt rec = pyStr v) ∧
      (pyGet rec "id" = none → safe_get_time fmt rec = "")) ∧
    (∀ dv, pyGet rec "date" = some dv → truthyV dv = true →
      stage3_text rec TEXT_KEYS = some (pyStr dv)) := by
  refine ⟨?_, ?_, ?_, ?_, ?_⟩
  · intro s h1
    simp only [safe_get_time]
    rw [h1]
  · intro s h1 h2
    simp only [safe_get_time]
    rw [h1, h2]
  · intro s h1 h2 h3
    simp only [safe_get_time]
    rw [h1, h2, h3]
  · intro h1 h2 h3
    constructor
    · intro v hv
      simp only [safe_get_time]
      rw [h1, h2, h3, hv]
    · intro hv
      simp only [safe_get_time]
      rw [h1, h2, h3, hv]
  · intro dv hd ht
    have hcond : (("date" == "hour" : Bool) && truthy (pyGet rec "date")) = false := by
      rw [show (("date" == "hour" : Bool)) = false from rfl]
      exact Bool.false_and _
    simp only [TEXT_KEYS, stage3_text]
    rw [hd]
    simp [ht, hcond]

/-- Witness for C8 (amended) on a concrete record with only a date. -/
theorem safe_get_time_stage_order_witness :
    stage3_text [("date", PyVal.str "X")] TEXT_KEYS = some "X" :=
  (safe_get_time_stage_order (fun _ => none) [("date", PyVal.str "X")]).2.2.2.2
    (PyVal.str "X") rfl (by decide)

/-- Loop invariant of the selection fold: either no candidate beats the
incoming best area and the state is unchanged, or the final state holds the
first candidate attaining the maximum area, every earlier candidate being
strictly smaller and every later one no larger. -/
lemma choose_fold_spec (areaF : List (ℚ × ℚ) → Option ℚ) :
    ∀ (polys : List (List (ℚ × ℚ))) (bo : Option (List (ℚ × ℚ))) (ba : ℚ),
    (polys.foldl (choose_step areaF) (bo, ba) = (bo, ba) ∧
      ∀ p ∈ polys, ∀ b, areaF p = some b → b ≤ ba) ∨
    (∃ l₁ r l₂ a, polys = l₁ ++ r :: l₂ ∧ areaF r = some a ∧ ba < a ∧
      polys.foldl (choose_step areaF) (bo, ba) = (some r, a) ∧
      (∀ p ∈ l₁, ∀ b, areaF p = some b → b < a) ∧
      (∀ p ∈ l₂, ∀ b, areaF p = some b → b ≤ a)) := by
  intro polys
  induction polys with
  | nil => intro bo ba; left; exact ⟨rfl, by simp⟩
  | cons q rest ih =>
    intro bo ba
    rw [List.foldl_cons]
    cases hq : areaF q with
    | none =>
      have hstep : choose_step areaF (bo, ba) q = (bo, ba) := by
        simp [choose_step, hq]
      rw [hstep]
      rcases ih bo ba with ⟨heq, hall⟩ | ⟨l₁, r, l₂, a, hsplit, har, hba, heq, h₁, h₂⟩
      · left
        refine ⟨heq, ?_⟩
        intro p hp b hb
        rcases List.mem_cons.mp hp with rfl | hp'
        · rw [hq] at hb; exact Option.noConfusion hb
        · exact hall p hp' b hb
      · right
        refine ⟨q :: l₁, r, l₂, a, by rw [hsplit]; rfl, har, hba, heq, ?_, h₂⟩
        intro p hp b hb
        rcases List.mem_cons.mp hp with rfl | hp'
        · rw [hq] at hb; exact Option.noConfusion hb
        · exact h₁ p hp' b hb
    | some bq =>
      by_cases hgt : bq > ba
      · have hstep : choose_step areaF (bo, ba) q = (some q, bq) := by
          simp [choose_step, hq, hgt]
        rw [hstep]
        rcases ih (some q) bq with ⟨heq, hall⟩ | ⟨l₁, r, l₂, a, hsplit, har, hba, heq, h₁, h₂⟩
        · right
          exact ⟨[], q, rest, bq, by simp, hq, hgt, heq, by simp, hall⟩
        · right
          refine ⟨q :: l₁, r, l₂, a, by rw [hsplit]; rfl, har,
            lt_trans hgt hba, heq, ?_, h₂⟩
          intro p hp b hb
          rcases List.mem_cons.mp hp with rfl | hp'
          · rw [hq] at hb; injection hb with hb'; rw [← hb']; exact hba
          · exact h₁ p hp' b hb
      · have hstep : choose_step areaF (bo, ba) q = (bo, ba) := by
          simp [choose_step, hq, hgt]
        rw [hstep]
        push_neg at hgt
        rcases ih bo ba with ⟨heq, hall⟩ | ⟨l₁, r, l₂, a, hsplit, har, hba, heq, h₁, h₂⟩
        · left
          refine ⟨heq, ?_⟩
          intro p hp b hb
          rcases List.mem_cons.mp hp with rfl | hp'
          · rw [hq] at hb; injection hb with hb'; rw [← hb']; exact hgt
          · exact hall p hp' b hb
        · right
          refine ⟨q :: l₁, r, l₂, a, by rw [hsplit]; rfl, har, hba, heq, ?_, h₂⟩
          intro p hp b hb
          rcases List.mem_cons.mp hp with rfl | hp'
          · rw [hq] at hb; injection hb with hb'; rw [← hb']
            exact lt_of_le_of_lt hgt hba
          · exact h₁ p hp' b hb

/-- C3: `choose_largest_polygon` skips candidates whose area computation
fails and continues; on an empty input or when every candidate fails it
returns the empty result; a single valid ring is returned whatever its
area; and in general the returned ring is the first candidate attaining the
strictly greatest area (earlier candidates strictly smaller, all candidates
no larger). -/
theorem choose_largest_polygon_selects (areaF : List (ℚ × ℚ) → Option ℚ) :
    choose_largest_polygon areaF [] = [] ∧
    (∀ polys, (∀ p ∈ polys, areaF p = none) →
      choose_largest_polygon areaF polys = []) ∧
    (∀ l₁ p l₂, areaF p = none →
      choose_largest_polygon areaF (l₁ ++ p :: l₂) =
        choose_largest_polygon areaF (l₁ ++ l₂)) ∧
    (∀ p a, areaF p = some a → 0 ≤ a → p ≠ [] →
      choose_largest_polygon areaF [p] = p) ∧
    (∀ polys, (∀ p ∈ polys, ∀ a, areaF p = some a → 0 ≤ a) →
      (∀ p ∈ polys, p ≠ []) →
      (∃ q ∈ polys, areaF q ≠ none) →
      ∃ l₁ r l₂ a, polys = l₁ ++ r :: l₂ ∧ areaF r = some a ∧
        choose_largest_polygon areaF polys = r ∧
        (∀ p ∈ l₁, ∀ b, areaF p = some b → b < a) ∧
        (∀ p ∈ polys, ∀ b, areaF p = some b → b ≤ a)) := by
  refine ⟨rfl, ?_, ?_, ?_, ?_⟩
  · intro polys h
    rcases choose_fold_spec areaF polys none (-1) with ⟨heq, -⟩ |
      ⟨l₁, r, l₂, a, hsplit, har, -, -, -, -⟩
    · simp only [choose_largest_polygon]
      rw [heq]
    · exfalso
      have hr : r ∈ polys := by rw [hsplit]; simp
      rw [h r hr] at har
      exact Option.noConfusion har
  · intro l₁ p l₂ hn
    simp only [choose_largest_polygon]
    have harm : ∀ acc, (l₁ ++ p :: l₂).foldl (choose_step areaF) acc =
        (l₁ ++ l₂).foldl (choose_step areaF) acc := by
      intro acc
      rw [List.foldl_append, List.foldl_append, List.foldl_cons]
      congr 1
      simp [choose_step, hn]
    rw [harm]
  · intro p a ha h0 hne
    have hgt : a > (-1 : ℚ) := lt_of_lt_of_le (by norm_num) h0
    simp [choose_largest_polygon, choose_step, ha, hgt, hne]
  · intro polys hpos hne hex
    obtain ⟨q, hq, hqa⟩ := hex
    rcases choose_fold_spec areaF polys none (-1) with ⟨-, hall⟩ |
      ⟨l₁, r, l₂, a, hsplit, har, -, heq, h₁, h₂⟩
    · exfalso
      cases hqa' : areaF q with
      | none => exact hqa hqa'
      | some b =>
        have hb1 := hall q hq b hqa'
        have hb2 := hpos q hq b hqa'
        linarith
    · have hr : r ∈ polys := by rw [hsplit]; simp
      refine ⟨l₁, r, l₂, a, hsplit, har, ?_, h₁, ?_⟩
      · simp only [choose_largest_polygon]
        rw [heq]
        simp [hne r hr]
      · intro p hp b hb
        rw [hsplit] at hp
        rcases List.mem_append.mp hp with hp1 | hp2
        · exact le_of_lt (h₁ p hp1 b hb)
        · rcases List.mem_cons.mp hp2 with rfl | hp3
          · rw [har] at hb; injection hb with hb'; rw [← hb']
          · exact h₂ p hp3 b hb

/-- Witness for C3: a single valid ring is returned as is. -/
theorem choose_largest_polygon_selects_witness :
    choose_largest_polygon (fun _ => some 1)
        [[((0 : ℚ), (0 : ℚ)), (1, 0), (0, 1)]] =
      [((0 : ℚ), (0 : ℚ)), (1, 0), (0, 1)] :=
  (choose_largest_polygon_selects (fun _ => some 1)).2.2.2.1
    [((0 : ℚ), (0 : ℚ)), (1, 0), (0, 1)] 1 rfl (by norm_num) (by simp)

/-- Swapping the operands of an edge cross term negates it. -/
lemma cross_swap (p q : ℚ × ℚ) : cross q p = - cross p q := by
  unfold cross; ring

/-- A cyclic sum over `range m` is invariant under an index shift. -/
lemma sum_range_addShift (m k : ℕ) (G : ℕ → ℚ) :
    ∑ i ∈ Finset.range m, G ((i + k) % m) = ∑ i ∈ Finset.range m, G i := by
  rcases Nat.eq_zero_or_pos m with rfl | hm
  · simp
  · haveI : NeZero m := ⟨hm.ne'⟩
    rw [← Fin.sum_univ_eq_sum_range (fun i => G ((i + k) % m)) m,
      ← Fin.sum_univ_eq_sum_range G m]
    have h1 : ∀ i : Fin m, G ((i.val + k) % m) =
        G ((Equiv.addRight (k : Fin m) i).val) := by
      intro i
      congr 1
      simp [Equiv.addRight, Fin.add_def, Fin.val_natCast, Nat.add_mod_mod]
    rw [Finset.sum_congr rfl fun i _ => h1 i]
    exact Equiv.sum_comp (Equiv.addRight (k : Fin m)) (fun i => G i.val)

/-- `shoelace` is invariant under cyclic rotation of the vertex list. -/
lemma shoelace_rotate (l : List (ℚ × ℚ)) (n : ℕ) :
    shoelace (l.rotate n) = shoelace l := by
  rcases Nat.eq_zero_or_pos l.length with h0 | hpos
  · rw [List.length_eq_zero.mp h0]
    simp [List.rotate_nil]
  · unfold shoelace
    rw [List.length_rotate]
    have hterm : ∀ i ∈ Finset.range l.length,
        cross ((l.rotate n).getD i (0, 0))
          ((l.rotate n).getD ((i + 1) % l.length) (0, 0)) =
        (fun j => cross (l.getD j (0, 0)) (l.getD ((j + 1) % l.length) (0, 0)))
          ((i + n) % l.length) := by
      intro i hi
      have hi' : i < l.length := Finset.mem_range.mp hi
      have h2 : (i + 1) % l.length < l.length := Nat.mod_lt _ hpos
      have hrot1 : (l.rotate n).getD i (0, 0) =
          l.getD ((i + n) % l.length) (0, 0) := by
        rw [List.getD_eq_getElem _ _ (by rw [List.length_rotate]; exact hi'),
          List.getElem_rotate,
          ← List.getD_eq_getElem _ (0, 0) (Nat.mod_lt _ hpos)]
      have hrot2 : (l.rotate n).getD ((i + 1) % l.length) (0, 0) =
          l.getD (((i + 1) % l.length + n) % l.length) (0, 0) := by
        rw [List.getD_eq_getElem _ _ (by rw [List.length_rotate]; exact h2),
          List.getElem_rotate,
          ← List.getD_eq_getElem _ (0, 0) (Nat.mod_lt _ hpos)]
      have hmod : ((i + 1) % l.length + n) % l.length =
          ((i + n) % l.length + 1) % l.length := by
        rw [Nat.mod_add_mod, Nat.mod_add_mod]
        congr 1
        omega
      rw [hrot1, hrot2, hmod]
    rw [Finset.sum_congr rfl hterm]
    exact sum_range_addShift l.length n
      (fun j => cross (l.getD j (0, 0)) (l.getD ((j + 1) % l.length) (0, 0)))

/-- Index arithmetic for the reversal argument: reflecting the successor of
a reflected index steps one vertex backwards around the cycle. -/
lemma nat_rev_succ_mod (m j : ℕ) (hm : 0 < m) (hj : j < m) :
    m - 1 - ((m - 1 - j + 1) % m) = (j + (m - 1)) % m := by
  rcases Nat.eq_zero_or_pos j with rfl | hjpos
  · have h1 : (m - 1 - 0 + 1) % m = 0 := by
      have h2 : m - 1 - 0 + 1 = m := by omega
      rw [h2, Nat.mod_self]
    rw [h1, Nat.zero_add, Nat.mod_eq_of_lt (by omega)]
    omega
  · have h1 : m - 1 - j + 1 = m - j := by omega
    have h2 : (m - j) % m = m - j := Nat.mod_eq_of_lt (by omega)
    have h3 : j + (m - 1) = (j - 1) + 1 * m := by omega
    rw [h1, h2, h3, Nat.add_mul_mod_self_right, Nat.mod_eq_of_lt (by omega)]
    omega

/-- Index arithmetic for the reversal argument: stepping backwards from the
successor returns to the index itself. -/
lemma nat_succ_pred_mod (m i : ℕ) (hi : i < m) :
    ((i + 1) % m + (m - 1)) % m = i := by
  rw [Nat.mod_add_mod]
  have h3 : i + 1 + (m - 1) = i + 1 * m := by omega
  rw [h3, Nat.add_mul_mod_self_right, Nat.mod_eq_of_lt hi]

/-- `shoelace` is negated by reversing the vertex list. -/
lemma shoelace_reverse (l : List (ℚ × ℚ)) : shoelace l.reverse = - shoelace l := by
  rcases Nat.eq_zero_or_pos l.length with h0 | hpos
  · rw [List.length_eq_zero.mp h0]
    simp [shoelace]
  · unfold shoelace
    rw [List.length_reverse]
    have hrev : ∀ j, j < l.length →
        l.reverse.getD j (0, 0) = l.getD (l.length - 1 - j) (0, 0) := by
      intro j hj
      rw [List.getD_eq_getElem _ _ (by rw [List.length_reverse]; exact hj),
        List.getElem_reverse,
        ← List.getD_eq_getElem _ (0, 0) (by omega)]
    have hterm : ∀ i ∈ Finset.range l.length,
        cross (l.reverse.getD i (0, 0)) (l.reverse.getD ((i + 1) % l.length) (0, 0)) =
        (fun j => cross (l.getD (l.length - 1 - j) (0, 0))
          (l.getD (l.length - 1 - ((j + 1) % l.length)) (0, 0))) i := by
      intro i hi
      have hi' : i < l.length := Finset.mem_range.mp hi
      rw [hrev i hi', hrev ((i + 1) % l.length) (Nat.mod_lt _ hpos)]
    rw [Finset.sum_congr rfl hterm]
    rw [← Finset.sum_range_reflect (fun j => cross (l.getD (l.length - 1 - j) (0, 0))
      (l.getD (l.length - 1 - ((j + 1) % l.length)) (0, 0))) l.length]
    have hterm2 : ∀ j ∈ Finset.range l.length,
        cross (l.getD (l.length - 1 - (l.length - 1 - j)) (0, 0))
          (l.getD (l.length - 1 - ((l.length - 1 - j + 1) % l.length)) (0, 0)) =
        (fun j => cross (l.getD j (0, 0))
          (l.getD ((j + (l.length - 1)) % l.length) (0, 0))) j := by
      intro j hj
      have hj' : j < l.length := Finset.mem_range.mp hj
      have e1 : l.length - 1 - (l.length - 1 - j) = j := by omega
      rw [e1, nat_rev_succ_mod l.length j hpos hj']
    rw [Finset.sum_congr rfl hterm2]
    rw [← sum_range_addShift l.length 1
      (fun j => cross (l.getD j (0, 0)) (l.getD ((j + (l.length - 1)) % l.length) (0, 0)))]
    rw [← Finset.sum_neg_distrib]
    refine Finset.sum_congr rfl ?_
    intro i hi
    have hi' : i < l.length := Finset.mem_range.mp hi
    rw [nat_succ_pred_mod l.length i hi']
    exact cross_swap _ _

/-- C5: `polygon_area_km2` returns the same value on a cyclically rotated
ring and on the reversed (opposite-winding) ring. -/
theorem polygon_area_km2_rotate_reverse (proj : ℚ × ℚ → ℚ × ℚ)
    (coords : List (ℚ × ℚ)) (n : ℕ) :
    polygon_area_km2 proj (coords.rotate n) = polygon_area_km2 proj coords ∧
    polygon_area_km2 proj coords.reverse = polygon_area_km2 proj coords := by
  constructor
  · unfold polygon_area_km2
    rw [List.map_rotate, shoelace_rotate]
  · unfold polygon_area_km2
    rw [List.map_reverse, shoelace_reverse, abs_neg]

end Fogos
